import Mathlib

/-!
Verification of the streaming SSE-consumption loop of the Smart Summary App
(`frontend/app/page.tsx`, function `handleSummarize`).

The loop reads byte chunks from `response.body`, decodes each chunk, splits it
on the blank-line delimiter `"\n\n"`, splits each resulting event on `"\n"`,
and for each line with the `"data: "` prefix interprets the payload:
`"[DONE]"` returns successfully, a payload starting with `"[ERROR]"` throws
(caught by the surrounding try/catch, which calls `setError` once), and any
other payload is unescaped (`data.replace(/\\n/g, '\n')`) and appended to
`accumulatedSummary`, with `setSummary(accumulatedSummary)` called after each
append.

The embedding below models text as `List Char` (JavaScript string operations
are modelled directly on character lists), the React state setters as event
logs inside a `Session` record (`snapshots` records the successive arguments
of `setSummary`, `errorCalls` those of `setError`), and the early
`return` / `throw` control flow as a terminal-state guard: once the session
has left the `ACTIVE` state, every remaining processing step is a no-op,
exactly as no code runs after `return`/`throw` in the source.
-/

namespace SmartSummary

/-- Character list of a string literal, for readable concrete inputs. -/
def str (s : String) : List Char := s.data

/-- Models JavaScript `String.prototype.startsWith(pre)`. -/
def jsStartsWith (pre s : List Char) : Bool := pre.isPrefixOf s

/-- Models JavaScript `String.prototype.slice(n)` for a nonnegative index. -/
def jsSlice (n : Nat) (s : List Char) : List Char := s.drop n

/-- Leftmost occurrence of `sep` in a character list: returns the part before
the occurrence and the part after it, or `none` when `sep` does not occur. -/
def firstSplit (sep : List Char) : List Char → Option (List Char × List Char)
  | [] => none
  | c :: cs =>
    if sep.isPrefixOf (c :: cs) then some ([], (c :: cs).drop sep.length)
    else
      match firstSplit sep cs with
      | none => none
      | some (b, a) => some (c :: b, a)

/-- Fuelled worker for `jsSplit`; for a non-empty separator every recursive
call strictly shrinks the remaining text, so fuel `s.length` suffices. -/
def splitSepFuel (sep : List Char) : Nat → List Char → List (List Char)
  | 0, s => [s]
  | fuel + 1, s =>
    match firstSplit sep s with
    | none => [s]
    | some (b, a) => b :: splitSepFuel sep fuel a

/-- Models JavaScript `String.prototype.split(sep)` for a non-empty string
separator: splits on every non-overlapping occurrence, left to right,
keeping empty pieces. -/
def jsSplit (sep s : List Char) : List (List Char) := splitSepFuel sep s.length s

/-- Models `data.replace(/\\n/g, '\n')` from the source: every
non-overlapping occurrence of the two-character sequence backslash-`n`,
scanned left to right, is replaced by a single newline character. -/
def unescape : List Char → List Char
  | [] => []
  | [c] => [c]
  | a :: b :: rest =>
    if a = '\\' && b = 'n' then '\n' :: unescape rest
    else a :: unescape (b :: rest)

/-- `true` when the list contains the two-character sequence backslash-`n`. -/
def hasBackslashN : List Char → Bool
  | [] => false
  | [_] => false
  | a :: b :: rest => (a = '\\' && b = 'n') || hasBackslashN (b :: rest)

/-- The session states of the spec: the loop is running (`ACTIVE`), returned
after the `[DONE]` sentinel (`DONE`), or an error was thrown and caught
(`FAILED`). -/
inductive StreamState
  | ACTIVE
  | DONE
  | FAILED
deriving DecidableEq, Repr

/-- One streaming session of `handleSummarize`.  `accumulated` is the local
`accumulatedSummary` variable, `snapshots` the ordered list of arguments
passed to `setSummary`, `errorCalls` the ordered list of arguments passed to
`setError`. -/
structure Session where
  accumulated : List Char
  snapshots : List (List Char)
  errorCalls : List (List Char)
  state : StreamState
deriving DecidableEq, Repr

/-- Session at the top of `handleSummarize`: empty summary, no callbacks,
loop running. -/
def initSession : Session := ⟨[], [], [], .ACTIVE⟩

/-- Body of `for (const line of lines)` from the source.  The leading guard
models the `return` / `throw` control flow: after the loop has terminated,
no further line is ever processed. -/
def processLine (s : Session) (line : List Char) : Session :=
  if s.state ≠ .ACTIVE then s
  else if jsStartsWith (str "data: ") line then
    let data := jsSlice 6 line
    if data = str "[DONE]" then { s with state := .DONE }
    else if jsStartsWith (str "[ERROR]") data then
      { s with state := .FAILED, errorCalls := s.errorCalls ++ [jsSlice 8 data] }
    else
      { s with accumulated := s.accumulated ++ unescape data,
               snapshots := s.snapshots ++ [s.accumulated ++ unescape data] }
  else s

/-- Body of `for (const event of events)`: `const lines = event.split('\n')`
followed by the line loop. -/
def processEvent (s : Session) (event : List Char) : Session :=
  (jsSplit (str "\n") event).foldl processLine s

/-- Body of the `while (true)` read loop for one decoded chunk:
`const events = chunk.split('\n\n')` followed by the event loop.  Note that
the source processes every piece of the split, including the final,
possibly-incomplete fragment; no tail is carried over to the next read. -/
def processChunk (s : Session) (chunk : List Char) : Session :=
  (jsSplit (str "\n\n") chunk).foldl processEvent s

/-- The whole read loop of `handleSummarize` over a stream that delivers the
given decoded chunks and then signals `done`. -/
def handleSummarize (chunks : List (List Char)) : Session :=
  chunks.foldl processChunk initSession

/-- The read loop together with the disposition of the underlying stream
after the listed chunks: `none` models natural end-of-input
(`done === true`, the loop just breaks), `some m` models a transport read
failure whose exception message `m` is caught by the surrounding
`try`/`catch`, which calls `setError` — relevant only if the loop was still
running. -/
def handleSummarizeRead (chunks : List (List Char)) (readFailure : Option (List Char)) :
    Session :=
  let s := handleSummarize chunks
  match readFailure with
  | none => s
  | some m =>
    if s.state = .ACTIVE then { s with state := .FAILED, errorCalls := s.errorCalls ++ [m] }
    else s

/-- `lastOr a l` is the last element of `l`, or `a` when `l` is empty. -/
def lastOr (a : List Char) : List (List Char) → List Char
  | [] => a
  | b :: r => lastOr b r

/-- `ChainFrom a l`: starting from `a`, every element of `l` extends its
predecessor (the monotone-growth relation on `setSummary` arguments). -/
def ChainFrom (a : List Char) : List (List Char) → Prop
  | [] => True
  | b :: r => a <+: b ∧ ChainFrom b r

/-! ### Helper lemmas -/

theorem isPrefixOf_append_self (p x : List Char) : p.isPrefixOf (p ++ x) = true := by
  induction p with
  | nil => simp
  | cons a as ih => simp [List.isPrefixOf_cons₂, ih]

theorem jsStartsWith_append (p x : List Char) : jsStartsWith p (p ++ x) = true :=
  isPrefixOf_append_self p x

theorem jsSlice_data_marker (p : List Char) : jsSlice 6 (str "data: " ++ p) = p := by
  show (str "data: " ++ p).drop 6 = p
  have h : (6 : Nat) = (str "data: ").length := by decide
  rw [h]
  exact List.drop_left _ _

theorem jsSlice_error_marker (t : List Char) :
    jsSlice 8 (str "[ERROR]" ++ t) = t.drop 1 := rfl

theorem error_payload_ne_done (t : List Char) : str "[ERROR]" ++ t ≠ str "[DONE]" := by
  intro h
  have hlen := congrArg List.length h
  simp [List.length_append] at hlen
  have h7 : (str "[ERROR]").length = 7 := by decide
  have h6 : (str "[DONE]").length = 6 := by decide
  omega

theorem processLine_frozen (s : Session) (line : List Char) (h : s.state ≠ .ACTIVE) :
    processLine s line = s := by
  simp [processLine, h]

theorem foldl_frozen (f : Session → List Char → Session)
    (hf : ∀ s b, s.state ≠ .ACTIVE → f s b = s) :
    ∀ (l : List (List Char)) (s : Session), s.state ≠ .ACTIVE → l.foldl f s = s := by
  intro l
  induction l with
  | nil => intro s _; rfl
  | cons b bs ih =>
    intro s h
    simp only [List.foldl_cons, hf s b h]
    exact ih s h

theorem processEvent_frozen (s : Session) (event : List Char) (h : s.state ≠ .ACTIVE) :
    processEvent s event = s :=
  foldl_frozen processLine processLine_frozen _ s h

theorem processChunk_frozen (s : Session) (chunk : List Char) (h : s.state ≠ .ACTIVE) :
    processChunk s chunk = s :=
  foldl_frozen processEvent processEvent_frozen _ s h

/-- Exhaustive description of what one line-processing step can do to the
session: leave it unchanged, mark it `DONE`, mark it `FAILED` while logging
exactly one error message, or append a fragment to the accumulated text and
log the new value as a progress snapshot. -/
theorem processLine_shape (s : Session) (line : List Char) :
    processLine s line = s
    ∨ (s.state = .ACTIVE ∧ processLine s line = { s with state := .DONE })
    ∨ (s.state = .ACTIVE ∧ ∃ u, processLine s line =
        { s with state := .FAILED, errorCalls := s.errorCalls ++ [u] })
    ∨ (s.state = .ACTIVE ∧ ∃ u, processLine s line =
        { s with accumulated := s.accumulated ++ u,
                 snapshots := s.snapshots ++ [s.accumulated ++ u] }) := by
  by_cases hA : s.state = .ACTIVE
  · by_cases hdata : jsStartsWith (str "data: ") line = true
    · by_cases hdone : jsSlice 6 line = str "[DONE]"
      · refine Or.inr (Or.inl ⟨hA, ?_⟩)
        simp [processLine, hA, hdata, hdone]
      · by_cases herr : jsStartsWith (str "[ERROR]") (jsSlice 6 line) = true
        · refine Or.inr (Or.inr (Or.inl ⟨hA, ⟨jsSlice 8 (jsSlice 6 line), ?_⟩⟩))
          simp [processLine, hA, hdata, hdone, herr]
        · refine Or.inr (Or.inr (Or.inr ⟨hA, ⟨unescape (jsSlice 6 line), ?_⟩⟩))
          simp [processLine, hA, hdata, hdone, herr]
    · left
      simp [processLine, hA, hdata]
  · left
    exact processLine_frozen s line hA

theorem foldl_preserve (P : Session → Prop) (f : Session → List Char → Session)
    (hf : ∀ s b, P s → P (f s b)) :
    ∀ (l : List (List Char)) (s : Session), P s → P (l.foldl f s) := by
  intro l
  induction l with
  | nil => intro s h; exact h
  | cons b bs ih =>
    intro s h
    exact ih (f s b) (hf s b h)

/-- The error callback is called exactly when the session has failed, and
then exactly once. -/
def ErrOnce (s : Session) : Prop :=
  (s.state = .FAILED ∧ ∃ m, s.errorCalls = [m]) ∨ (s.state ≠ .FAILED ∧ s.errorCalls = [])

theorem errOnce_processLine (s : Session) (line : List Char) (h : ErrOnce s) :
    ErrOnce (processLine s line) := by
  rcases processLine_shape s line with heq | ⟨hA, heq⟩ | ⟨hA, u, heq⟩ | ⟨hA, u, heq⟩ <;>
    rw [heq]
  · exact h
  · rcases h with ⟨hF, _⟩ | ⟨_, hnil⟩
    · rw [hA] at hF; cases hF
    · exact Or.inr ⟨by simp, hnil⟩
  · rcases h with ⟨hF, _⟩ | ⟨_, hnil⟩
    · rw [hA] at hF; cases hF
    · exact Or.inl ⟨rfl, ⟨u, by simp [hnil]⟩⟩
  · rcases h with ⟨hF, hm⟩ | ⟨hne, hnil⟩
    · exact Or.inl ⟨hF, hm⟩
    · exact Or.inr ⟨hne, hnil⟩

theorem errOnce_processEvent (s : Session) (event : List Char) (h : ErrOnce s) :
    ErrOnce (processEvent s event) :=
  foldl_preserve ErrOnce processLine errOnce_processLine _ s h

theorem errOnce_processChunk (s : Session) (chunk : List Char) (h : ErrOnce s) :
    ErrOnce (processChunk s chunk) :=
  foldl_preserve ErrOnce processEvent errOnce_processEvent _ s h

theorem errOnce_handleSummarize (chunks : List (List Char)) :
    ErrOnce (handleSummarize chunks) :=
  foldl_preserve ErrOnce processChunk errOnce_processChunk chunks initSession
    (Or.inr ⟨by simp [initSession], rfl⟩)

theorem errOnce_handleSummarizeRead (chunks : List (List Char))
    (readFailure : Option (List Char)) : ErrOnce (handleSummarizeRead chunks readFailure) := by
  have h := errOnce_handleSummarize chunks
  cases readFailure with
  | none => exact h
  | some m =>
    by_cases hA : (handleSummarize chunks).state = .ACTIVE
    · rcases h with ⟨hF, _⟩ | ⟨_, hnil⟩
      · rw [hA] at hF; cases hF
      · exact Or.inl ⟨by simp [handleSummarizeRead, hA], ⟨m, by simp [handleSummarizeRead, hA, hnil]⟩⟩
    · simpa [handleSummarizeRead, hA] using h

theorem errorCalls_nil_of_active (chunks : List (List Char))
    (h : (handleSummarize chunks).state = .ACTIVE) :
    (handleSummarize chunks).errorCalls = [] := by
  rcases errOnce_handleSummarize chunks with ⟨hF, _⟩ | ⟨_, hnil⟩
  · rw [h] at hF; cases hF
  · exact hnil

theorem processLine_done (s : Session) (h : s.state = .ACTIVE) :
    processLine s (str "data: [DONE]") = { s with state := .DONE } := by
  have hsw : jsStartsWith (str "data: ") (str "data: [DONE]") = true := by decide
  have hsl : jsSlice 6 (str "data: [DONE]") = str "[DONE]" := by decide
  simp [processLine, h, hsw, hsl]

theorem processLine_error (s : Session) (t : List Char) (h : s.state = .ACTIVE) :
    processLine s (str "data: " ++ (str "[ERROR]" ++ t)) =
      { s with state := .FAILED, errorCalls := s.errorCalls ++ [t.drop 1] } := by
  have hsw := jsStartsWith_append (str "data: ") (str "[ERROR]" ++ t)
  have hsl := jsSlice_data_marker (str "[ERROR]" ++ t)
  have hne := error_payload_ne_done t
  have herr := jsStartsWith_append (str "[ERROR]") t
  have hsl8 := jsSlice_error_marker t
  simp [processLine, h, hsw, hsl, hne, herr, hsl8]

theorem processLine_content (s : Session) (p : List Char) (h : s.state = .ACTIVE)
    (hd : p ≠ str "[DONE]") (he : jsStartsWith (str "[ERROR]") p = false) :
    processLine s (str "data: " ++ p) =
      { s with accumulated := s.accumulated ++ unescape p,
               snapshots := s.snapshots ++ [s.accumulated ++ unescape p] } := by
  have hsw := jsStartsWith_append (str "data: ") p
  have hsl := jsSlice_data_marker p
  simp [processLine, h, hsw, hsl, hd, he]

theorem lastOr_append (a x : List Char) (l : List (List Char)) :
    lastOr a (l ++ [x]) = x := by
  induction l generalizing a with
  | nil => rfl
  | cons b r ih => exact ih b

theorem chainFrom_append (a x : List Char) (l : List (List Char)) (hc : ChainFrom a l)
    (hx : lastOr a l <+: x) : ChainFrom a (l ++ [x]) := by
  induction l generalizing a with
  | nil => exact ⟨hx, trivial⟩
  | cons b r ih =>
    obtain ⟨hab, hr⟩ := hc
    exact ⟨hab, ih b hr hx⟩

/-- The monotone-growth invariant: the `setSummary` arguments form a chain in
which each extends the previous one, starting from the empty text, and the
current accumulated text is the latest snapshot (or empty before the first
one). -/
def GoodSession (s : Session) : Prop :=
  ChainFrom [] s.snapshots ∧ lastOr [] s.snapshots = s.accumulated

theorem goodSession_processLine (s : Session) (line : List Char) (h : GoodSession s) :
    GoodSession (processLine s line) := by
  obtain ⟨hc, hl⟩ := h
  rcases processLine_shape s line with heq | ⟨_, heq⟩ | ⟨_, u, heq⟩ | ⟨_, u, heq⟩ <;> rw [heq]
  · exact ⟨hc, hl⟩
  · exact ⟨hc, hl⟩
  · exact ⟨hc, hl⟩
  · refine ⟨chainFrom_append [] (s.accumulated ++ u) s.snapshots hc ?_, ?_⟩
    · rw [hl]; exact List.prefix_append _ _
    · exact lastOr_append [] (s.accumulated ++ u) s.snapshots

theorem goodSession_handleSummarize (chunks : List (List Char)) :
    GoodSession (handleSummarize chunks) := by
  refine foldl_preserve GoodSession processChunk ?_ chunks initSession ⟨trivial, rfl⟩
  intro s c hs
  exact foldl_preserve GoodSession processEvent
    (fun s e hs => foldl_preserve GoodSession processLine goodSession_processLine _ s hs)
    _ s hs

theorem hasBackslashN_cons_of_ne (c : Char) (u : List Char) (hc : c ≠ '\\') :
    hasBackslashN (c :: u) = hasBackslashN u := by
  cases u with
  | nil => simp [hasBackslashN]
  | cons b r => simp [hasBackslashN, hc]

theorem unescape_cons_head (x : Char) (r : List Char) :
    ∃ u, unescape (x :: r) = x :: u ∨ unescape (x :: r) = '\n' :: u := by
  cases r with
  | nil => exact ⟨[], Or.inl rfl⟩
  | cons b rb =>
    by_cases h : x = '\\' && b = 'n'
    · exact ⟨unescape rb, Or.inr (by simp [unescape, h])⟩
    · exact ⟨unescape (b :: rb), Or.inl (by simp [unescape, h])⟩

theorem hasBackslashN_unescape_aux :
    ∀ (n : Nat) (l : List Char), l.length ≤ n → hasBackslashN (unescape l) = false := by
  intro n
  induction n with
  | zero =>
    intro l hl
    have : l = [] := List.eq_nil_of_length_eq_zero (Nat.le_zero.mp hl)
    subst this
    simp [unescape, hasBackslashN]
  | succ n ih =>
    intro l hl
    match l with
    | [] => simp [unescape, hasBackslashN]
    | [c] => simp [unescape, hasBackslashN]
    | a :: b :: rest =>
      by_cases hab : a = '\\' && b = 'n'
      · rw [show unescape (a :: b :: rest) = '\n' :: unescape rest from by simp [unescape, hab]]
        rw [hasBackslashN_cons_of_ne '\n' _ (by decide)]
        refine ih rest ?_
        simp [List.length_cons] at hl
        omega
      · rw [show unescape (a :: b :: rest) = a :: unescape (b :: rest) from by
          simp [unescape, hab]]
        have IH : hasBackslashN (unescape (b :: rest)) = false := by
          refine ih (b :: rest) ?_
          simp [List.length_cons] at hl ⊢
          omega
        by_cases ha : a = '\\'
        · have hb : b ≠ 'n' := by
            intro hbn
            exact hab (by simp [ha, hbn])
          obtain ⟨u, hu | hu⟩ := unescape_cons_head b rest
          · rw [hu] at IH ⊢
            simpa [hasBackslashN, hb] using IH
          · rw [hu] at IH ⊢
            simpa [hasBackslashN] using IH
        · rw [hasBackslashN_cons_of_ne a _ ha]
          exact IH

/-- Decoding leaves no occurrence of the escape sequence backslash-`n`:
every occurrence in the payload is decoded. -/
theorem hasBackslashN_unescape (l : List Char) : hasBackslashN (unescape l) = false :=
  hasBackslashN_unescape_aux l.length l (Nat.le_refl _)

theorem processChunk_errframe (s : Session) (h : s.state = .ACTIVE) :
    processChunk s (str "data: [ERROR] API quota exceeded\n\n") =
      { s with state := .FAILED, errorCalls := s.errorCalls ++ [str "API quota exceeded"] } := by
  have hsplit : jsSplit (str "\n\n") (str "data: [ERROR] API quota exceeded\n\n") =
      [str "data: [ERROR] API quota exceeded", str ""] := by decide
  unfold processChunk
  rw [hsplit]
  simp only [List.foldl_cons, List.foldl_nil]
  have he1 : processEvent s (str "data: [ERROR] API quota exceeded") =
      { s with state := .FAILED, errorCalls := s.errorCalls ++ [str "API quota exceeded"] } := by
    have hsplit1 : jsSplit (str "\n") (str "data: [ERROR] API quota exceeded") =
        [str "data: [ERROR] API quota exceeded"] := by decide
    unfold processEvent
    rw [hsplit1]
    simp only [List.foldl_cons, List.foldl_nil]
    have hdecomp : str "data: [ERROR] API quota exceeded" =
        str "data: " ++ (str "[ERROR]" ++ str " API quota exceeded") := by decide
    rw [hdecomp, processLine_error s _ h,
      show List.drop 1 (str " API quota exceeded") = str "API quota exceeded" from by decide]
  rw [he1]
  exact processEvent_frozen _ _ (by simp)

/-! ### The claims -/

/-- C1 (evaluation at the failing input): two chunkings of the same byte
sequence — a valid stream of one content frame followed by a `[DONE]` frame —
produce different final accumulated texts.  Delivered as one chunk, the
stream `"data: abc\n\ndata: [DONE]\n\n"` accumulates `"abc"`; split as
`"data: ab"` / `"c\n\ndata: [DONE]\n\n"`, the loop processes the trailing
fragment `"data: ab"` immediately (no carry-over buffer), accumulates
`"ab"`, and then ignores the continuation line `"c"`, so the final text is
`"ab"`, not the concatenation of the content-frame payloads.  Chunking
invariance therefore fails on the code. -/
theorem claim_chunking_invariance_violated :
    str "data: ab" ++ str "c\n\ndata: [DONE]\n\n" = str "data: abc\n\ndata: [DONE]\n\n"
    ∧ (handleSummarize [str "data: abc\n\ndata: [DONE]\n\n"]).state = .DONE
    ∧ (handleSummarize [str "data: ab", str "c\n\ndata: [DONE]\n\n"]).state = .DONE
    ∧ (handleSummarize [str "data: abc\n\ndata: [DONE]\n\n"]).accumulated = str "abc"
    ∧ (handleSummarize [str "data: ab", str "c\n\ndata: [DONE]\n\n"]).accumulated = str "ab"
    := by decide

/-- C2 (counterexample to the claim as stated): after the stream
`["data: hi\n\n"]` signals natural end-of-input with no `[DONE]` or
`[ERROR]` sentinel ever seen, the session is not `FAILED` and the error
callback was never invoked — the loop simply breaks and reports success,
contradicting the claimed "incomplete stream" failure. -/
theorem claim_eof_failure_counterexample :
    (handleSummarizeRead [str "data: hi\n\n"] none).state ≠ .FAILED
    ∧ (handleSummarizeRead [str "data: hi\n\n"] none).errorCalls = [] := by decide

/-- C2 (amended): when the underlying stream signals natural end-of-input
without a `[DONE]`/`[ERROR]` sentinel having been seen, the session ends
silently: it is left in its non-terminal state, the error callback is never
invoked, and the partial accumulated text is retained. -/
theorem claim_eof_silent_completion (chunks : List (List Char))
    (h : (handleSummarize chunks).state = .ACTIVE) :
    handleSummarizeRead chunks none = handleSummarize chunks
    ∧ (handleSummarizeRead chunks none).errorCalls = []
    ∧ (handleSummarizeRead chunks none).state = .ACTIVE :=
  ⟨rfl, errorCalls_nil_of_active chunks h, h⟩

theorem claim_eof_silent_completion_witness :
    (handleSummarize [str "data: hi\n\n"]).state = .ACTIVE
    ∧ ((handleSummarizeRead [str "data: hi\n\n"] none).errorCalls = []
       ∧ (handleSummarizeRead [str "data: hi\n\n"] none).state = .ACTIVE) :=
  ⟨by decide, (claim_eof_silent_completion [str "data: hi\n\n"] (by decide)).2⟩

/-- C3 (evaluation at the failing input): a single chunk holding two
complete frames does yield two progress callbacks in order, but the frame
`"data: hello\n\n"` split into `"data: hel"` and `"lo\n\n"` yields exactly
one progress callback carrying only the partial payload `"hel"` — not the
complete merged payload `"hello"` — because the loop treats the trailing
fragment of the first chunk as a complete frame and then ignores the
continuation line `"lo"`. -/
theorem claim_split_frame_partial_payload :
    (handleSummarize [str "data: a\n\ndata: b\n\n"]).snapshots = [str "a", str "ab"]
    ∧ (handleSummarize [str "data: hel", str "lo\n\n"]).snapshots = [str "hel"]
    ∧ [str "hel"] ≠ [str "hello"] := by decide

/-- C4: for every stream in which the frame
`"data: [ERROR] API quota exceeded\n\n"` arrives while the session is still
active, the error callback is invoked with exactly the message
`"API quota exceeded"` (the payload after its first 8 characters, verbatim),
the terminal state is `FAILED`, and no progress callback occurs after the
error frame (the snapshots are exactly those of the prefix).  Moreover, on
every run — any chunks, ended by natural end-of-input or by a transport
read failure — the error callback is invoked at most once, and exactly once
precisely when the session ends `FAILED`: no failure path escapes the error
handler. -/
theorem claim_error_sentinel_contract :
    (∀ (pre post : List (List Char)), (handleSummarize pre).state = .ACTIVE →
      (handleSummarize (pre ++ str "data: [ERROR] API quota exceeded\n\n" :: post)).state
          = .FAILED
      ∧ (handleSummarize (pre ++ str "data: [ERROR] API quota exceeded\n\n" :: post)).errorCalls
          = [str "API quota exceeded"]
      ∧ (handleSummarize (pre ++ str "data: [ERROR] API quota exceeded\n\n" :: post)).snapshots
          = (handleSummarize pre).snapshots)
    ∧ (∀ (chunks : List (List Char)) (failure : Option (List Char)),
        (handleSummarizeRead chunks failure).errorCalls.length ≤ 1
        ∧ ((handleSummarizeRead chunks failure).state = .FAILED ↔
            (handleSummarizeRead chunks failure).errorCalls.length = 1)) := by
  constructor
  · intro pre post h
    have hfold : handleSummarize (pre ++ str "data: [ERROR] API quota exceeded\n\n" :: post)
        = List.foldl processChunk
            (processChunk (handleSummarize pre) (str "data: [ERROR] API quota exceeded\n\n"))
            post := by
      unfold handleSummarize
      rw [List.foldl_append, List.foldl_cons]
    rw [hfold, processChunk_errframe _ h,
      foldl_frozen processChunk processChunk_frozen post _ (by simp)]
    refine ⟨rfl, ?_, rfl⟩
    rw [errorCalls_nil_of_active pre h]
    rfl
  · intro chunks failure
    rcases errOnce_handleSummarizeRead chunks failure with ⟨hF, m, hm⟩ | ⟨hne, hnil⟩
    · simp [hm, hF]
    · simp [hnil, hne]

theorem claim_error_sentinel_contract_witness :
    (handleSummarize []).state = .ACTIVE
    ∧ ((handleSummarize ([] ++ str "data: [ERROR] API quota exceeded\n\n" :: [])).state = .FAILED
       ∧ (handleSummarize ([] ++ str "data: [ERROR] API quota exceeded\n\n" :: [])).errorCalls
           = [str "API quota exceeded"]
       ∧ (handleSummarize ([] ++ str "data: [ERROR] API quota exceeded\n\n" :: [])).snapshots
           = (handleSummarize []).snapshots) :=
  ⟨rfl, claim_error_sentinel_contract.1 [] [] rfl⟩

/-- C5: for the chunk sequence
`"data: This is \n\ndata: a test summary.\n\n"` then `"data: [DONE]\n\n"`,
the final accumulated text is `"This is a test summary."` and the terminal
state is `DONE`. -/
theorem claim_demo_stream :
    (handleSummarize
        [str "data: This is \n\ndata: a test summary.\n\n", str "data: [DONE]\n\n"]).accumulated
      = str "This is a test summary."
    ∧ (handleSummarize
        [str "data: This is \n\ndata: a test summary.\n\n", str "data: [DONE]\n\n"]).state
      = .DONE := by decide

/-- C6: a data line whose payload is exactly `[DONE]` moves an active
session to the terminal `DONE` state with no other effect, and once the
session is no longer active, processing any further chunk — hence any
further frame or payload — is a no-op. -/
theorem claim_done_sentinel_terminates :
    (∀ (s : Session), s.state = .ACTIVE →
      processLine s (str "data: [DONE]") = { s with state := .DONE })
    ∧ (∀ (s : Session) (c : List Char), s.state ≠ .ACTIVE → processChunk s c = s) :=
  ⟨processLine_done, processChunk_frozen⟩

theorem claim_done_sentinel_terminates_witness :
    processLine initSession (str "data: [DONE]") = { initSession with state := .DONE }
    ∧ processChunk { initSession with state := .DONE } (str "data: more\n\n")
        = { initSession with state := .DONE } :=
  ⟨claim_done_sentinel_terminates.1 initSession rfl,
   claim_done_sentinel_terminates.2 { initSession with state := .DONE }
     (str "data: more\n\n") (by decide)⟩

/-- C7: a content payload (neither `[DONE]` nor `[ERROR]`-prefixed) is
appended to the accumulated text with every backslash-`n` escape decoded to
a newline — the appended text is `unescape payload`, in which no occurrence
of backslash-`n` remains — and in particular the payload
`"line1\\nline2"` (literal backslash-n) contributes the two lines
`"line1"` and `"line2"`. -/
theorem claim_content_unescape :
    (∀ (s : Session) (p : List Char), s.state = .ACTIVE → p ≠ str "[DONE]" →
      jsStartsWith (str "[ERROR]") p = false →
      processLine s (str "data: " ++ p) =
        { s with accumulated := s.accumulated ++ unescape p,
                 snapshots := s.snapshots ++ [s.accumulated ++ unescape p] }
      ∧ hasBackslashN (unescape p) = false)
    ∧ jsSplit (str "\n") (unescape (str "line1\\nline2")) = [str "line1", str "line2"] :=
  ⟨fun s p h hd he => ⟨processLine_content s p h hd he, hasBackslashN_unescape p⟩, by decide⟩

theorem claim_content_unescape_witness :
    processLine initSession (str "data: " ++ str "line1\\nline2") =
      { initSession with
          accumulated := initSession.accumulated ++ unescape (str "line1\\nline2"),
          snapshots := initSession.snapshots
            ++ [initSession.accumulated ++ unescape (str "line1\\nline2")] }
    ∧ hasBackslashN (unescape (str "line1\\nline2")) = false :=
  claim_content_unescape.1 initSession (str "line1\\nline2") rfl (by decide) (by decide)

/-- C8: over any stream, the successive arguments of the progress callback
form a chain in which each value extends the previous one (starting from the
empty text) and the accumulated text is always the latest such value — it is
never rewound; and once the session state has left `ACTIVE`, processing any
further chunk is a no-op, so no byte is processed, the accumulated text is
frozen, no further callback occurs, and neither `DONE` nor `FAILED` has an
outgoing transition. -/
theorem claim_monotone_accumulation :
    (∀ (chunks : List (List Char)),
      ChainFrom [] (handleSummarize chunks).snapshots
      ∧ lastOr [] (handleSummarize chunks).snapshots = (handleSummarize chunks).accumulated)
    ∧ (∀ (s : Session) (c : List Char), s.state ≠ .ACTIVE → processChunk s c = s) :=
  ⟨goodSession_handleSummarize, processChunk_frozen⟩

theorem claim_monotone_accumulation_witness :
    (ChainFrom [] (handleSummarize [str "data: a\n\ndata: b\n\n"]).snapshots
     ∧ lastOr [] (handleSummarize [str "data: a\n\ndata: b\n\n"]).snapshots
         = (handleSummarize [str "data: a\n\ndata: b\n\n"]).accumulated)
    ∧ processChunk { initSession with state := .FAILED } (str "data: x\n\n")
        = { initSession with state := .FAILED } :=
  ⟨claim_monotone_accumulation.1 [str "data: a\n\ndata: b\n\n"],
   claim_monotone_accumulation.2 { initSession with state := .FAILED }
     (str "data: x\n\n") (by decide)⟩

/-- C9: a line that does not begin with the `"data: "` marker is ignored:
processing it leaves the whole session — accumulated text, state, progress
and error callback logs — unchanged, and in particular never fails the
session. -/
theorem claim_non_data_line_ignored (s : Session) (line : List Char)
    (h : jsStartsWith (str "data: ") line = false) : processLine s line = s := by
  by_cases hA : s.state = .ACTIVE
  · simp [processLine, hA, h]
  · exact processLine_frozen s line hA

theorem claim_non_data_line_ignored_witness :
    processLine initSession (str ": keep-alive") = initSession :=
  claim_non_data_line_ignored initSession (str ": keep-alive") (by decide)

/-- C10: the error-sentinel test uses the 7-character marker `"[ERROR]"`
while the message is the payload minus its first 8 characters, so a payload
`"[ERROR]"` followed immediately by a non-space character still fails the
session, the reported message drops that first following character, and the
payload is never appended as summary content: concretely,
`"data: [ERROR]Xmsg\n\n"` fails with message `"msg"` (not `"Xmsg"`) and no
progress callback. -/
theorem claim_error_prefix_mismatch :
    (∀ (s : Session) (c : Char) (rest : List Char), s.state = .ACTIVE → c ≠ ' ' →
      processLine s (str "data: " ++ (str "[ERROR]" ++ (c :: rest))) =
        { s with state := .FAILED, errorCalls := s.errorCalls ++ [rest] })
    ∧ (handleSummarize [str "data: [ERROR]Xmsg\n\n"]).state = .FAILED
    ∧ (handleSummarize [str "data: [ERROR]Xmsg\n\n"]).errorCalls = [str "msg"]
    ∧ (handleSummarize [str "data: [ERROR]Xmsg\n\n"]).snapshots = [] := by
  refine ⟨fun s c rest h _ => ?_, by decide, by decide, by decide⟩
  exact processLine_error s (c :: rest) h

theorem claim_error_prefix_mismatch_witness :
    processLine initSession (str "data: " ++ (str "[ERROR]" ++ ('X' :: str "msg"))) =
      { initSession with state := .FAILED,
                         errorCalls := initSession.errorCalls ++ [str "msg"] } :=
  claim_error_prefix_mismatch.1 initSession 'X' (str "msg") rfl (by decide)

end SmartSummary
